import Mathlib

/-!
Verification of the contract amortization & interest engine of the
FinanceCalendar repository (`database_manager.py`), over a shallow
embedding of its data model and algorithms.

Dates are modelled after Qt's `QDate` as (year, month, day) triples of
integers, compared lexicographically (for valid calendar dates this is
exactly `QDate`'s Julian-day order).  Monetary amounts and rates are
modelled as exact rationals (`ℚ`), the idealization of the Python floats
used by the source.
-/

/-- The (year, month, day) date triple modelling Qt's `QDate`. -/
structure QDate where
  year : Int
  month : Int
  day : Int
deriving DecidableEq, Repr

/-- Strict lexicographic order on dates; agrees with `QDate.__lt__`
(Julian-day comparison) on valid calendar dates. -/
def QDate.ltB (a b : QDate) : Bool :=
  a.year < b.year ||
    (a.year = b.year && (a.month < b.month ||
      (a.month = b.month && a.day < b.day)))

/-- Non-strict lexicographic order on dates. -/
def QDate.leB (a b : QDate) : Bool :=
  QDate.ltB a b || a = b

/-- Gregorian leap-year rule, as used by `QDate` and Python's calendar. -/
def isLeapYear (y : Int) : Bool :=
  y % 4 == 0 && (y % 100 != 0 || y % 400 == 0)

/-- `QDate(y, m, 1).daysInMonth()` for months 1..12. -/
def daysInMonth (y m : Int) : Int :=
  if m = 2 then (if isLeapYear y then 29 else 28)
  else if m = 4 ∨ m = 6 ∨ m = 9 ∨ m = 11 then 30
  else 31

/-- `QDate.daysInYear()`: 366 in a leap year, 365 otherwise. -/
def QDate.daysInYear (d : QDate) : Int :=
  if isLeapYear d.year then 366 else 365

/-- `QDate.isValid()` for positive-era dates: the month is 1..12 and the
day is 1..days-in-month. -/
def isValidDate (d : QDate) : Bool :=
  1 ≤ d.month && d.month ≤ 12 && 1 ≤ d.day && d.day ≤ daysInMonth d.year d.month

/-- The month of a date as a single integer count (year*12 + month - 1),
the natural coordinate for month-stepping loops. -/
def monthCode (d : QDate) : Int :=
  d.year * 12 + d.month - 1

/-- Decode a month count back into a (year, month) pair. -/
def ymOfCode (c : Int) : Int × Int :=
  (c / 12, c % 12 + 1)

/-- `QDate.addMonths(n)`: shift the month, clamping the day-of-month to
the length of the target month. -/
def QDate.addMonths (d : QDate) (n : Int) : QDate :=
  let t := monthCode d + n
  ⟨t / 12, t % 12 + 1, min d.day (daysInMonth (t / 12) (t % 12 + 1))⟩

/-- `QDate.addDays(1)`: successor day in the Gregorian calendar. -/
def QDate.addDays1 (d : QDate) : QDate :=
  if d.day < daysInMonth d.year d.month then ⟨d.year, d.month, d.day + 1⟩
  else if d.month < 12 then ⟨d.year, d.month + 1, 1⟩
  else ⟨d.year + 1, 1, 1⟩

/-- `QDate.addYears(n)`: shift the year, clamping the day-of-month
(Feb 29 → Feb 28 off leap years). -/
def QDate.addYears (d : QDate) (n : Int) : QDate :=
  ⟨d.year + n, d.month, min d.day (daysInMonth (d.year + n) d.month)⟩

/-- Linear ordinal used only as a termination measure for day-stepping
loops: strictly monotone along `addDays1` and along `ltB` on dates with
bounded month/day fields. -/
def dOrd (d : QDate) : Int :=
  d.year * 500 + d.month * 35 + d.day

lemma daysInMonth_bounds (y m : Int) : 28 ≤ daysInMonth y m ∧ daysInMonth y m ≤ 31 := by
  unfold daysInMonth
  split_ifs <;> omega

lemma isValidDate_iff (d : QDate) :
    isValidDate d = true ↔
      1 ≤ d.month ∧ d.month ≤ 12 ∧ 1 ≤ d.day ∧ d.day ≤ daysInMonth d.year d.month := by
  unfold isValidDate
  simp [Bool.and_eq_true, decide_eq_true_eq, and_assoc]

lemma ltB_iff (a b : QDate) :
    QDate.ltB a b = true ↔
      a.year < b.year ∨ (a.year = b.year ∧ (a.month < b.month ∨
        (a.month = b.month ∧ a.day < b.day))) := by
  unfold QDate.ltB
  simp [Bool.or_eq_true, Bool.and_eq_true, decide_eq_true_eq]

lemma qdate_ext_iff (a b : QDate) :
    a = b ↔ a.year = b.year ∧ a.month = b.month ∧ a.day = b.day := by
  constructor
  · rintro rfl; exact ⟨rfl, rfl, rfl⟩
  · rcases a with ⟨ay, am, ad⟩
    rcases b with ⟨by_, bm, bd⟩
    rintro ⟨h1, h2, h3⟩
    simp_all

lemma leB_iff (a b : QDate) :
    QDate.leB a b = true ↔ QDate.ltB a b = true ∨ a = b := by
  unfold QDate.leB
  simp [Bool.or_eq_true, decide_eq_true_eq]

lemma leB_iff' (a b : QDate) :
    QDate.leB a b = true ↔
      a.year < b.year ∨ (a.year = b.year ∧ (a.month < b.month ∨
        (a.month = b.month ∧ a.day ≤ b.day))) := by
  rw [leB_iff, ltB_iff, qdate_ext_iff]
  omega

lemma leB_refl (a : QDate) : QDate.leB a a = true := by
  rw [leB_iff']; omega

lemma leB_trans {a b c : QDate} (h1 : QDate.leB a b = true)
    (h2 : QDate.leB b c = true) : QDate.leB a c = true := by
  rw [leB_iff'] at *; omega

lemma leB_total (a b : QDate) : QDate.leB a b = true ∨ QDate.leB b a = true := by
  rw [leB_iff', leB_iff']; omega

lemma not_leB_iff (a b : QDate) :
    ¬ QDate.leB a b = true ↔ QDate.ltB b a = true := by
  rw [leB_iff', ltB_iff]; omega

lemma not_ltB_iff (a b : QDate) :
    ¬ QDate.ltB a b = true ↔ QDate.leB b a = true := by
  rw [leB_iff', ltB_iff]; omega

lemma monthCode_addMonths (d : QDate) (n : Int) :
    monthCode (d.addMonths n) = monthCode d + n := by
  simp only [QDate.addMonths, monthCode]
  omega

lemma addMonths_month_bounds (d : QDate) (n : Int) :
    1 ≤ (d.addMonths n).month ∧ (d.addMonths n).month ≤ 12 := by
  simp only [QDate.addMonths]
  omega

lemma addMonths_valid {d : QDate} (hd : isValidDate d = true) (n : Int) :
    isValidDate (d.addMonths n) = true := by
  rw [isValidDate_iff] at hd ⊢
  have hb := daysInMonth_bounds ((monthCode d + n) / 12) ((monthCode d + n) % 12 + 1)
  simp only [QDate.addMonths]
  omega

lemma addMonths_day_one {d : QDate} (h1 : d.day = 1) (n : Int) :
    (d.addMonths n).day = 1 := by
  have hb := daysInMonth_bounds ((monthCode d + n) / 12) ((monthCode d + n) % 12 + 1)
  simp only [QDate.addMonths]
  omega

lemma addMonths_fields (d : QDate) (n : Int) :
    (d.addMonths n).year = (monthCode d + n) / 12 ∧
      (d.addMonths n).month = (monthCode d + n) % 12 + 1 :=
  ⟨rfl, rfl⟩

lemma ymOfCode_monthCode {d : QDate} (h1 : 1 ≤ d.month) (h2 : d.month ≤ 12) :
    ymOfCode (monthCode d) = (d.year, d.month) := by
  unfold ymOfCode monthCode
  rw [Prod.mk.injEq]
  omega

lemma ymOfCode_month_bounds (c : Int) :
    1 ≤ (ymOfCode c).2 ∧ (ymOfCode c).2 ≤ 12 := by
  unfold ymOfCode
  omega

lemma monthCode_ymOfCode (c : Int) :
    (ymOfCode c).1 * 12 + (ymOfCode c).2 - 1 = c := by
  unfold ymOfCode
  omega

lemma addDays1_valid {d : QDate} (hd : isValidDate d = true) :
    isValidDate d.addDays1 = true := by
  rw [isValidDate_iff] at hd
  unfold QDate.addDays1
  have hb := daysInMonth_bounds d.year d.month
  split_ifs with h1 h2
  · rw [isValidDate_iff]; simp only []; omega
  · rw [isValidDate_iff]
    have := daysInMonth_bounds d.year (d.month + 1)
    simp only []
    omega
  · rw [isValidDate_iff]
    have := daysInMonth_bounds (d.year + 1) 1
    simp only []
    omega

lemma dOrd_addDays1 (d : QDate) (hm : d.month ≤ 12) (hday : d.day ≤ 31) :
    dOrd d < dOrd d.addDays1 := by
  unfold QDate.addDays1 dOrd
  have hb := daysInMonth_bounds d.year d.month
  split_ifs with h1 h2 <;> simp only [] <;> omega

lemma dOrd_lt_of_ltB {a b : QDate}
    (ha : isValidDate a = true) (hb : isValidDate b = true)
    (h : QDate.ltB a b = true) : dOrd a < dOrd b := by
  rw [isValidDate_iff] at ha hb
  rw [ltB_iff] at h
  have ha31 : a.day ≤ 31 := le_trans ha.2.2.2 (daysInMonth_bounds a.year a.month).2
  have hb31 : b.day ≤ 31 := le_trans hb.2.2.2 (daysInMonth_bounds b.year b.month).2
  unfold dOrd
  omega

lemma monthCode_le_of_ltB_day_one {a b : QDate}
    (hma : 1 ≤ a.month ∧ a.month ≤ 12)
    (hmb : 1 ≤ b.month ∧ b.month ≤ 12)
    (h : QDate.ltB a b = true) : monthCode a ≤ monthCode b := by
  rw [ltB_iff] at h
  unfold monthCode
  omega

lemma ltB_of_monthCode_lt {a b : QDate}
    (hma : 1 ≤ a.month ∧ a.month ≤ 12) (hmb : 1 ≤ b.month ∧ b.month ≤ 12)
    (h : monthCode a < monthCode b) : QDate.ltB a b = true := by
  rw [ltB_iff]
  unfold monthCode at h
  omega

lemma not_ltB_of_monthCode_lt {a b : QDate}
    (hma : 1 ≤ a.month ∧ a.month ≤ 12) (hmb : 1 ≤ b.month ∧ b.month ≤ 12)
    (h : monthCode b < monthCode a) : QDate.ltB a b = false := by
  rw [← Bool.not_eq_true, not_ltB_iff, leB_iff']
  unfold monthCode at h
  omega

/-! ## Data model: contract settings and the deposit ledger -/

/-- `ContractSettings`: the single active record read by the engine. -/
structure Settings where
  start_date : QDate
  end_date : QDate
  initial_rate : ℚ
  rate_history : List (QDate × ℚ)
  contract_amount : ℚ
deriving DecidableEq, Repr

/-- The deposit ledger: the rows of the `daily_data` table, keyed by
date (at most one row per date in the real store). -/
abbrev Ledger := List (QDate × ℚ)

/-- Dictionary lookup `all_payments[day_str]` on the ledger. -/
def lookupLedger (L : Ledger) (d : QDate) : Option ℚ :=
  (L.find? (fun e => decide (e.1 = d))).map Prod.snd

/-! ## 4.1 Effective Rate Resolver (`get_effective_rate_on_date`) -/

/-- One stable insertion step of Python's `sorted(..., key=date)`:
the new entry goes in front of the first entry whose date is at or
after its own, hence after all earlier-listed entries of equal date. -/
def insertRate (e : QDate × ℚ) : List (QDate × ℚ) → List (QDate × ℚ)
  | [] => [e]
  | x :: xs => if QDate.leB e.1 x.1 then e :: x :: xs else x :: insertRate e xs

/-- Python's stable `sorted(rate_history, key=lambda x: x.date)`. -/
def sortRateHistory : List (QDate × ℚ) → List (QDate × ℚ)
  | [] => []
  | x :: xs => insertRate x (sortRateHistory xs)

/-- The scan of `get_effective_rate_on_date`: take each entry dated at
or before `date` as the new effective rate, stop at the first entry
dated after `date`. -/
def rateScan (date : QDate) : List (QDate × ℚ) → ℚ → ℚ
  | [], eff => eff
  | e :: rest, eff => if QDate.leB e.1 date then rateScan date rest e.2 else eff

/-- `DatabaseManager.get_effective_rate_on_date`. -/
def get_effective_rate_on_date (date : QDate) (S : Settings) : ℚ :=
  rateScan date (sortRateHistory S.rate_history) S.initial_rate

/-! ## 4.2 Monthly Plan Allocator (`calculate_monthly_plans`) -/

/-- `_get_months_between_dates_including_start_excluding_end`. -/
def get_months_between_dates_including_start_excluding_end
    (start_date end_date : QDate) : Int :=
  max 1 ((end_date.year - start_date.year) * 12 + end_date.month - start_date.month)

/-- `_get_months_between_dates_excluding_end` (floored at 0; unused by
the plan computation but kept for completeness). -/
def get_months_between_dates_excluding_end (start_date end_date : QDate) : Int :=
  max 0 ((end_date.year - start_date.year) * 12 + end_date.month - start_date.month)

/-- Month bounds needed to carry a month-stepping loop state. -/
abbrev MonthOK (d : QDate) : Prop := 1 ≤ d.month ∧ d.month ≤ 12

/-- The `monthly_fact` sum of one month: deposits whose `yyyy-MM-dd` key
starts with the month's `yyyy-MM` key, i.e. whose year and month match. -/
def monthFact (L : Ledger) (y m : Int) : ℚ :=
  ((L.filter (fun e => decide (e.1.year = y) && decide (e.1.month = m))).map Prod.snd).sum

/-- The month-walking `while current_date < end_date` loop of
`calculate_monthly_plans`: skip the closing month, otherwise accumulate
the month's deposits and emit the adjusted plan for the month key. -/
def plansLoop (endD : QDate) (hE : MonthOK endD) (base : ℚ) (L : Ledger)
    (cur : QDate) (hc : MonthOK cur) (idx : Int) (cf : ℚ) :
    List ((Int × Int) × ℚ) :=
  if h : QDate.ltB cur endD then
    if cur.year = endD.year ∧ cur.month = endD.month then
      plansLoop endD hE base L (cur.addMonths 1) (addMonths_month_bounds cur 1) idx cf
    else
      let monthly_fact := monthFact L cur.year cur.month
      let cf2 := cf + monthly_fact
      let idx2 := idx + 1
      let target_cumulative_plan := base * idx2
      let adjusted_plan :=
        if cf2 > target_cumulative_plan then
          max 0 (base - (cf2 - target_cumulative_plan))
        else base
      ((cur.year, cur.month), adjusted_plan) ::
        plansLoop endD hE base L (cur.addMonths 1) (addMonths_month_bounds cur 1) idx2 cf2
  else []
termination_by (monthCode endD + 1 - monthCode cur).toNat
decreasing_by
  · have h1 := monthCode_le_of_ltB_day_one hc hE h
    rw [monthCode_addMonths]
    omega
  · have h1 := monthCode_le_of_ltB_day_one hc hE h
    rw [monthCode_addMonths]
    omega

/-- `DatabaseManager.calculate_monthly_plans` (the stored settings and
ledger rows are passed explicitly; validity of the stored contract dates
is the well-formedness assumed of the external store). -/
def calculate_monthly_plans (S : Settings) (L : Ledger)
    (hs : isValidDate S.start_date = true) (he : isValidDate S.end_date = true) :
    List ((Int × Int) × ℚ) :=
  if S.contract_amount = 0 then []
  else
    let months_count :=
      get_months_between_dates_including_start_excluding_end S.start_date S.end_date
    if months_count = 0 then []
    else
      let base_monthly_amount := S.contract_amount / (months_count : ℚ)
      plansLoop S.end_date
        (by rw [isValidDate_iff] at he; exact ⟨he.1, he.2.1⟩)
        base_monthly_amount L
        ⟨S.start_date.year, S.start_date.month, 1⟩
        (by rw [isValidDate_iff] at hs; exact ⟨hs.1, hs.2.1⟩)
        0 0

/-- Reference shape of the emitted plan list: `n` months starting at
month count `c`, with running 1-based index `idx` and running deposit
total `cf`.  `plansLoop` is proved to produce exactly this. -/
def planList (base : ℚ) (L : Ledger) : Int → Int → ℚ → ℕ → List ((Int × Int) × ℚ)
  | _, _, _, 0 => []
  | c, idx, cf, n + 1 =>
    let y := (ymOfCode c).1
    let m := (ymOfCode c).2
    let cf2 := cf + monthFact L y m
    let idx2 := idx + 1
    let tgt := base * idx2
    let adj := if cf2 > tgt then max 0 (base - (cf2 - tgt)) else base
    ((y, m), adj) :: planList base L (c + 1) idx2 cf2 n

/-- Cumulative actual deposits over the `k` months starting at month
count `c0`. -/
def cumFactThrough (L : Ledger) (c0 : Int) : ℕ → ℚ
  | 0 => 0
  | k + 1 => cumFactThrough L c0 k + monthFact L (ymOfCode (c0 + k)).1 (ymOfCode (c0 + k)).2

/-- `DatabaseManager.get_remaining_contract_amount`. -/
def get_remaining_contract_amount (S : Settings) (L : Ledger) : ℚ :=
  max 0 (S.contract_amount - (L.map Prod.snd).sum)

/-! ## 4.3 Interest Simulator (`calculate_monthly_interest`) -/

/-- Python's `min(a, b)` on dates: the second argument wins only when it
is strictly smaller. -/
def minDate (a b : QDate) : QDate :=
  if QDate.ltB b a then b else a

lemma minDate_valid {a b : QDate} (ha : isValidDate a = true)
    (hb : isValidDate b = true) : isValidDate (minDate a b) = true := by
  unfold minDate
  split_ifs <;> assumption

/-- The per-month accrual date: `QDate(year, month, contract_day)`, with
the fallback to the last day of the month when that day is invalid. -/
def accrualDate (start : QDate) (year month : Int) : QDate :=
  if isValidDate ⟨year, month, start.day⟩ then ⟨year, month, start.day⟩
  else ⟨year, month, daysInMonth year month⟩

lemma accrualDate_valid (start : QDate) (year month : Int)
    (hm : 1 ≤ month ∧ month ≤ 12) :
    isValidDate (accrualDate start year month) = true := by
  unfold accrualDate
  split_ifs with h
  · exact h
  · rw [isValidDate_iff]
    have hb := daysInMonth_bounds year month
    exact ⟨hm.1, hm.2, by show (1:Int) ≤ daysInMonth year month; omega, le_refl _⟩

/-- The interest computed on one simulated day from the balance at the
start of the day — before that day's deposit is added; zero on days the
running balance is not positive. -/
def dayInterest (S : Settings) (d : QDate) (bal : ℚ) : ℚ :=
  if bal > 0 then bal * get_effective_rate_on_date d S / 100 / (d.daysInYear : ℚ) else 0

/-- One full simulated day of `calculate_monthly_interest`: capitalize
the interest on the incoming balance, then add the day's deposit. -/
def dayStep (S : Settings) (L : Ledger) (d : QDate) (bal : ℚ) : ℚ :=
  (bal + dayInterest S d bal) + (lookupLedger L d).getD 0

/-- The day-by-day trace of the simulation: date and running balance at
the start of the n-th simulated day, counted from `d0`. -/
def simBalance (S : Settings) (L : Ledger) (d0 : QDate) : ℕ → QDate × ℚ
  | 0 => (d0, 0)
  | n + 1 =>
    let p := simBalance S L d0 n
    (p.1.addDays1, dayStep S L p.1 p.2)

/-- The `while iter_date < simulation_end_date` daily-compounding loop of
`calculate_monthly_interest`: capitalize interest on the running balance
(recording it when the day lies in the target period), then add the
day's deposit, then advance one day. -/
def simLoop (S : Settings) (L : Ledger) (tps simEnd : QDate)
    (hE : isValidDate simEnd = true) (iter : QDate)
    (hI : isValidDate iter = true) (bal acc : ℚ) : ℚ :=
  if h : QDate.ltB iter simEnd then
    let step :=
      if bal > 0 then
        let rate := get_effective_rate_on_date iter S
        let daily_interest := bal * rate / 100 / (iter.daysInYear : ℚ)
        (bal + daily_interest,
          if QDate.leB tps iter then acc + daily_interest else acc)
      else (bal, acc)
    let bal2 :=
      match lookupLedger L iter with
      | some a => step.1 + a
      | none => step.1
    simLoop S L tps simEnd hE iter.addDays1 (addDays1_valid hI) bal2 step.2
  else acc
termination_by (dOrd simEnd - dOrd iter).toNat
decreasing_by
  have h1 := dOrd_lt_of_ltB hI hE h
  have hIb := (isValidDate_iff iter).1 hI
  have hb := daysInMonth_bounds iter.year iter.month
  have h2 := dOrd_addDays1 iter hIb.2.1 (by omega)
  omega

/-- `DatabaseManager.calculate_monthly_interest` (the real-world clock
`QDate.currentDate()` is the explicit `today` parameter). -/
def calculate_monthly_interest (S : Settings) (L : Ledger) (today : QDate)
    (year month : Int) (hs : isValidDate S.start_date = true)
    (ht : isValidDate today = true) (hm : 1 ≤ month ∧ month ≤ 12) : ℚ :=
  let start_date := S.start_date
  let accrual_date := accrualDate start_date year month
  if QDate.leB accrual_date start_date then 0
  else
    let target_period_start :=
      if QDate.ltB (accrual_date.addMonths (-1)) start_date then start_date
      else accrual_date.addMonths (-1)
    let simulation_end_date := minDate accrual_date today
    if QDate.leB simulation_end_date target_period_start then 0
    else
      simLoop S L target_period_start simulation_end_date
        (minDate_valid (accrualDate_valid start_date year month hm) ht)
        start_date hs 0 0

/-! ## 4.4 Cumulative interest (`get_total_accumulated_interest`) -/

/-- The month-walking loop of `get_total_accumulated_interest`. -/
def accLoop (S : Settings) (L : Ledger) (today up_to : QDate)
    (hs : isValidDate S.start_date = true) (ht : isValidDate today = true)
    (cur : QDate) (hc : isValidDate cur = true) (total : ℚ) : ℚ :=
  if h : QDate.leB cur (up_to.addMonths 1) then
    if QDate.ltB up_to ⟨cur.year, cur.month, 1⟩ ∧ QDate.ltB up_to cur then total
    else
      accLoop S L today up_to hs ht (cur.addMonths 1) (addMonths_valid hc 1)
        (total + calculate_monthly_interest S L today cur.year cur.month hs ht
          (by rw [isValidDate_iff] at hc; exact ⟨hc.1, hc.2.1⟩))
  else total
termination_by (monthCode (up_to.addMonths 1) + 1 - monthCode cur).toNat
decreasing_by
  have hcb := (isValidDate_iff cur).1 hc
  have hub := addMonths_month_bounds up_to 1
  have h1 : monthCode cur ≤ monthCode (up_to.addMonths 1) := by
    rw [leB_iff'] at h
    unfold monthCode
    omega
  rw [monthCode_addMonths cur 1]
  omega

/-- `DatabaseManager.get_total_accumulated_interest`. -/
def get_total_accumulated_interest (S : Settings) (L : Ledger)
    (today up_to : QDate) (hs : isValidDate S.start_date = true)
    (ht : isValidDate today = true) : ℚ :=
  if QDate.leB up_to S.start_date then 0
  else accLoop S L today up_to hs ht (S.start_date.addMonths 1) (addMonths_valid hs 1) 0

/-- Reference shape of the cumulative-interest sum: the monthly interest
of the `n` consecutive months starting at month count `c`. -/
def interestMonthSum (S : Settings) (L : Ledger) (today : QDate)
    (hs : isValidDate S.start_date = true) (ht : isValidDate today = true) :
    Int → ℕ → ℚ
  | _, 0 => 0
  | c, n + 1 =>
    calculate_monthly_interest S L today (ymOfCode c).1 (ymOfCode c).2 hs ht
        (ymOfCode_month_bounds c) +
      interestMonthSum S L today hs ht (c + 1) n

/-! ## Persistence layer (`daily_data` and `contract_settings` tables) -/

/-- A decimal digit character (used by the zero-padded `yyyy-MM-dd`
serialization). -/
def digitChar (n : Nat) : Char :=
  Char.ofNat (48 + n % 10)

/-- The numeric value of a decimal digit character. -/
def digitVal (c : Char) : Nat :=
  c.toNat - 48

/-- `QDate.toString('yyyy-MM-dd')`: fixed-width zero-padded rendering
(for the 4-digit-year dates the application stores). -/
def fmtYMD (d : QDate) : String :=
  let y := d.year.toNat
  let m := d.month.toNat
  let dd := d.day.toNat
  String.mk [digitChar (y / 1000), digitChar (y / 100), digitChar (y / 10), digitChar y,
    '-', digitChar (m / 10), digitChar m, '-', digitChar (dd / 10), digitChar dd]

/-- `QDate.fromString(s, 'yyyy-MM-dd')`: fixed-width parse; `none` is the
null `QDate` returned on malformed input. -/
def parseYMD (s : String) : Option QDate :=
  match s.data with
  | [y1, y2, y3, y4, s1, m1, m2, s2, d1, d2] =>
    if s1 = '-' && s2 = '-' &&
        y1.isDigit && y2.isDigit && y3.isDigit && y4.isDigit &&
        m1.isDigit && m2.isDigit && d1.isDigit && d2.isDigit then
      some ⟨(digitVal y1 * 1000 + digitVal y2 * 100 + digitVal y3 * 10 + digitVal y4 : Nat),
        (digitVal m1 * 10 + digitVal m2 : Nat),
        (digitVal d1 * 10 + digitVal d2 : Nat)⟩
    else none
  | _ => none

/-- Qt's null date, produced by a failed `QDate.fromString`. -/
def nullQDate : QDate := ⟨0, 0, 0⟩

/-- One stored row of the `contract_settings` table.  Dates are stored in
their `yyyy-MM-dd` text form; `rate_history` is stored as its JSON text,
whose round trip through `json.dumps`/`json.loads` is the identity and is
modelled as the value itself. -/
structure SettingsRow where
  start_s : String
  end_s : String
  initial_rate : ℚ
  rate_history : List (QDate × ℚ)
  contract_amount : ℚ

/-- The `contract_settings` table: at most one current row. -/
abbrev SettingsStore := Option SettingsRow

/-- `DatabaseManager.save_contract_settings`: delete all previous rows,
insert the new one. -/
def save_contract_settings (contract_data : Settings) (_st : SettingsStore) :
    SettingsStore :=
  some ⟨fmtYMD contract_data.start_date, fmtYMD contract_data.end_date,
    contract_data.initial_rate, contract_data.rate_history,
    contract_data.contract_amount⟩

/-- `DatabaseManager.get_contract_settings`: read the current row back,
or the documented defaults (`today`, `today + 1 year`, 0, [], 0). -/
def get_contract_settings (st : SettingsStore) (today : QDate) : Settings :=
  match st with
  | some r =>
    ⟨(parseYMD r.start_s).getD nullQDate, (parseYMD r.end_s).getD nullQDate,
      r.initial_rate, r.rate_history, r.contract_amount⟩
  | none => ⟨today, today.addYears 1, 0, [], 0⟩

/-- `DatabaseManager.save_daily_amount`: delete the row when the amount
is zero, otherwise `INSERT OR REPLACE` the unique row for the date. -/
def save_daily_amount (st : Ledger) (date : QDate) (amount : ℚ) : Ledger :=
  if amount = 0 then st.filter (fun e => !decide (e.1 = date))
  else st.filter (fun e => !decide (e.1 = date)) ++ [(date, amount)]

/-- `DatabaseManager.get_daily_amount`: the stored amount, or 0.0 when
no row exists. -/
def get_daily_amount (st : Ledger) (date : QDate) : ℚ :=
  ((st.find? (fun e => decide (e.1 = date))).map Prod.snd).getD 0

/-! ## Concrete fixtures used by the spec's worked examples -/

/-- The §8 rate-lookup example: initial rate 3.0 and history
[{01.01.2023, 5.0}, {01.06.2023, 7.0}]. -/
def exampleSettings : Settings :=
  ⟨⟨2023, 1, 1⟩, ⟨2024, 1, 1⟩, 3, [(⟨2023, 1, 1⟩, 5), (⟨2023, 6, 1⟩, 7)], 0⟩

/-- A rate history with two entries sharing one effective date. -/
def tieSettings : Settings :=
  ⟨⟨2023, 1, 1⟩, ⟨2024, 1, 1⟩, 3, [(⟨2023, 1, 1⟩, 5), (⟨2023, 1, 1⟩, 9)], 0⟩

/-- The §8 end-to-end contract: 2024-01-01 to 2025-01-01, amount 12000. -/
def s2024 : Settings := ⟨⟨2024, 1, 1⟩, ⟨2025, 1, 1⟩, 0, [], 12000⟩

/-- A contract whose start and end fall in the same calendar month. -/
def sJan : Settings := ⟨⟨2024, 1, 15⟩, ⟨2024, 1, 20⟩, 0, [], 1200⟩

/-- The §8 contract with a positive initial rate of 5% and no rate
history. -/
def sRate5 : Settings := ⟨⟨2024, 1, 1⟩, ⟨2025, 1, 1⟩, 5, [], 12000⟩

lemma s2024_start_valid : isValidDate s2024.start_date = true := by decide

lemma s2024_end_valid : isValidDate s2024.end_date = true := by decide

lemma sJan_start_valid : isValidDate sJan.start_date = true := by decide

lemma sJan_end_valid : isValidDate sJan.end_date = true := by decide

/-! ## Supporting lemmas -/

lemma not_leB_of_monthCode_lt {a b : QDate}
    (hma : MonthOK a) (hmb : MonthOK b)
    (h : monthCode b < monthCode a) : QDate.leB a b = false := by
  rw [← Bool.not_eq_true, leB_iff']
  unfold monthCode at h
  omega

lemma monthCode_eq_iff {a b : QDate} (hma : MonthOK a) (hmb : MonthOK b) :
    monthCode a = monthCode b ↔ a.year = b.year ∧ a.month = b.month := by
  unfold monthCode
  omega

lemma mem_insertRate {a e : QDate × ℚ} {l : List (QDate × ℚ)} :
    a ∈ insertRate e l ↔ a = e ∨ a ∈ l := by
  induction l with
  | nil => simp [insertRate]
  | cons x xs ih =>
    unfold insertRate
    split_ifs with h
    · simp [List.mem_cons]
    · simp [List.mem_cons, ih]
      tauto

lemma mem_sortRateHistory {a : QDate × ℚ} {l : List (QDate × ℚ)} :
    a ∈ sortRateHistory l ↔ a ∈ l := by
  induction l with
  | nil => simp [sortRateHistory]
  | cons x xs ih =>
    unfold sortRateHistory
    rw [mem_insertRate, ih]
    simp

lemma pairwise_insertRate {e : QDate × ℚ} {l : List (QDate × ℚ)}
    (hl : l.Pairwise (fun a b => QDate.leB a.1 b.1 = true)) :
    (insertRate e l).Pairwise (fun a b => QDate.leB a.1 b.1 = true) := by
  induction l with
  | nil => simp [insertRate]
  | cons x xs ih =>
    rw [List.pairwise_cons] at hl
    unfold insertRate
    split_ifs with h
    · rw [List.pairwise_cons]
      refine ⟨?_, List.Pairwise.cons hl.1 hl.2⟩
      intro b hb
      rcases List.mem_cons.1 hb with rfl | hb
      · exact h
      · exact leB_trans h (hl.1 b hb)
    · rw [List.pairwise_cons]
      refine ⟨?_, ih hl.2⟩
      intro b hb
      rcases mem_insertRate.1 hb with rfl | hb
      · rw [not_leB_iff] at h
        exact (leB_iff _ _).2 (Or.inl h)
      · exact hl.1 b hb

lemma pairwise_sortRateHistory (l : List (QDate × ℚ)) :
    (sortRateHistory l).Pairwise (fun a b => QDate.leB a.1 b.1 = true) := by
  induction l with
  | nil => simp [sortRateHistory]
  | cons x xs ih => exact pairwise_insertRate ih

lemma rateScan_sorted (date : QDate) (l : List (QDate × ℚ)) (init : ℚ)
    (hl : l.Pairwise (fun a b => QDate.leB a.1 b.1 = true)) :
    rateScan date l init =
      ((l.filter (fun e => QDate.leB e.1 date)).map Prod.snd).getLastD init := by
  induction l generalizing init with
  | nil => simp [rateScan]
  | cons e rest ih =>
    rw [List.pairwise_cons] at hl
    unfold rateScan
    split_ifs with h
    · rw [ih e.2 hl.2, List.filter_cons_of_pos (by simpa using h),
        List.map_cons, List.getLastD_cons]
    · rw [List.filter_cons_of_neg (by simpa using h)]
      have hrest : rest.filter (fun e => QDate.leB e.1 date) = [] := by
        rw [List.filter_eq_nil_iff]
        intro b hb
        simp only [Bool.not_eq_true]
        by_contra hq
        exact h (leB_trans (hl.1 b hb) (by simpa using hq))
      rw [hrest]
      simp

lemma filter_insertRate_eq_date (m : QDate) (e : QDate × ℚ) (l : List (QDate × ℚ)) :
    (insertRate e l).filter (fun x => decide (x.1 = m)) =
      if e.1 = m then e :: l.filter (fun x => decide (x.1 = m))
      else l.filter (fun x => decide (x.1 = m)) := by
  induction l with
  | nil =>
    by_cases hem : e.1 = m
    · simp [insertRate, List.filter_cons, hem]
    · simp [insertRate, List.filter_cons, hem]
  | cons x xs ih =>
    unfold insertRate
    by_cases h : QDate.leB e.1 x.1 = true
    · rw [if_pos h]
      by_cases hem : e.1 = m
      · rw [if_pos hem, List.filter_cons_of_pos (by simpa using hem)]
      · rw [if_neg hem, List.filter_cons_of_neg (by simpa using hem)]
    · rw [if_neg h]
      by_cases hxm : x.1 = m
      · have hem : ¬ e.1 = m := by
          intro he
          rw [not_leB_iff, ltB_iff] at h
          rw [qdate_ext_iff] at hxm he
          omega
        rw [List.filter_cons_of_pos (by simpa using hxm), ih, if_neg hem,
          if_neg hem, List.filter_cons_of_pos (by simpa using hxm)]
      · rw [List.filter_cons_of_neg (by simpa using hxm), ih,
          List.filter_cons_of_neg (by simpa using hxm)]

lemma filter_sortRateHistory_eq_date (m : QDate) (l : List (QDate × ℚ)) :
    (sortRateHistory l).filter (fun x => decide (x.1 = m)) =
      l.filter (fun x => decide (x.1 = m)) := by
  induction l with
  | nil => rfl
  | cons x xs ih =>
    unfold sortRateHistory
    rw [filter_insertRate_eq_date]
    split_ifs with h
    · rw [List.filter_cons_of_pos (by simpa using h), ih]
    · rw [List.filter_cons_of_neg (by simpa using h), ih]

/-! ### Characterization of the plan allocator -/

lemma plansLoop_eq_planList (endD : QDate) (hE : MonthOK endD) (base : ℚ)
    (L : Ledger) :
    ∀ (n : ℕ) (cur : QDate) (hc : MonthOK cur), cur.day = 1 →
      (monthCode endD + 1 - monthCode cur).toNat ≤ n →
      ∀ (idx : Int) (cf : ℚ),
        plansLoop endD hE base L cur hc idx cf =
          planList base L (monthCode cur) idx cf (monthCode endD - monthCode cur).toNat := by
  intro n
  induction n with
  | zero =>
    intro cur hc hday hle idx cf
    have hlt : monthCode endD < monthCode cur := by omega
    rw [plansLoop]
    rw [dif_neg]
    · have h0 : (monthCode endD - monthCode cur).toNat = 0 := by omega
      rw [h0]
      rfl
    · have := not_ltB_of_monthCode_lt hc hE hlt
      simp [this]
  | succ n ih =>
    intro cur hc hday hle idx cf
    rw [plansLoop]
    by_cases h : QDate.ltB cur endD = true
    · rw [dif_pos h]
      have hcode := monthCode_le_of_ltB_day_one hc hE h
      by_cases hskip : cur.year = endD.year ∧ cur.month = endD.month
      · rw [if_pos hskip]
        have hceq : monthCode cur = monthCode endD := by
          unfold monthCode
          omega
        rw [ih (cur.addMonths 1) (addMonths_month_bounds cur 1)
          (addMonths_day_one hday 1) (by rw [monthCode_addMonths]; omega)]
        rw [monthCode_addMonths]
        have h1 : (monthCode endD - (monthCode cur + 1)).toNat = 0 := by omega
        have h2 : (monthCode endD - monthCode cur).toNat = 0 := by omega
        rw [h1, h2]
        rfl
      · rw [if_neg hskip]
        have hcne : monthCode cur ≠ monthCode endD := by
          intro hc0
          exact hskip ((monthCode_eq_iff hc hE).1 hc0)
        have hclt : monthCode cur < monthCode endD := by omega
        dsimp only
        rw [ih (cur.addMonths 1) (addMonths_month_bounds cur 1)
          (addMonths_day_one hday 1) (by rw [monthCode_addMonths]; omega)]
        rw [monthCode_addMonths]
        have h1 : (monthCode endD - monthCode cur).toNat =
            (monthCode endD - (monthCode cur + 1)).toNat + 1 := by omega
        rw [h1, planList]
        have hym : ymOfCode (monthCode cur) = (cur.year, cur.month) :=
          ymOfCode_monthCode hc.1 hc.2
        rw [hym]
    · rw [dif_neg h]
      have hle2 : QDate.leB endD cur = true := (not_ltB_iff cur endD).1 (by simp [h])
      have hcode : monthCode endD ≤ monthCode cur := by
        rw [leB_iff'] at hle2
        unfold monthCode
        omega
      have h0 : (monthCode endD - monthCode cur).toNat = 0 := by omega
      rw [h0]
      rfl

lemma monthCode_first_day (d : QDate) :
    monthCode ⟨d.year, d.month, 1⟩ = monthCode d := rfl

lemma months_between_pos (start_date end_date : QDate) :
    1 ≤ get_months_between_dates_including_start_excluding_end start_date end_date :=
  le_max_left 1 _

lemma months_between_eq_codes (start_date end_date : QDate) :
    get_months_between_dates_including_start_excluding_end start_date end_date =
      max 1 (monthCode end_date - monthCode start_date) := by
  unfold get_months_between_dates_including_start_excluding_end monthCode
  have : (end_date.year - start_date.year) * 12 + end_date.month - start_date.month =
      end_date.year * 12 + end_date.month - 1 - (start_date.year * 12 + start_date.month - 1) := by
    ring
  rw [this]

lemma calculate_monthly_plans_eq (S : Settings) (L : Ledger)
    (hs : isValidDate S.start_date = true) (he : isValidDate S.end_date = true)
    (hA : S.contract_amount ≠ 0) :
    calculate_monthly_plans S L hs he =
      planList
        (S.contract_amount /
          ((get_months_between_dates_including_start_excluding_end
            S.start_date S.end_date : Int) : ℚ))
        L (monthCode S.start_date) 0 0
        (monthCode S.end_date - monthCode S.start_date).toNat := by
  unfold calculate_monthly_plans
  rw [if_neg hA]
  have hpos := months_between_pos S.start_date S.end_date
  rw [if_neg (by omega)]
  rw [plansLoop_eq_planList S.end_date _ _ L
    ((monthCode S.end_date + 1 - monthCode ⟨S.start_date.year, S.start_date.month, 1⟩).toNat)
    ⟨S.start_date.year, S.start_date.month, 1⟩ _ rfl (le_refl _) 0 0]
  rw [monthCode_first_day]

lemma monthFact_nil (y m : Int) : monthFact [] y m = 0 := rfl

lemma planList_length (base : ℚ) (L : Ledger) :
    ∀ (n : ℕ) (c0 idx : Int) (cf : ℚ), (planList base L c0 idx cf n).length = n := by
  intro n
  induction n with
  | zero => intro c0 idx cf; rfl
  | succ n ih =>
    intro c0 idx cf
    rw [planList]
    rw [List.length_cons, ih]

lemma cumFactThrough_succ_head (L : Ledger) (c0 : Int) :
    ∀ j : ℕ, cumFactThrough L c0 (j + 1) =
      monthFact L (ymOfCode c0).1 (ymOfCode c0).2 + cumFactThrough L (c0 + 1) j := by
  intro j
  induction j with
  | zero => simp [cumFactThrough]
  | succ j ih =>
    show cumFactThrough L c0 (j + 1) + _ = _
    rw [ih]
    show _ = _ + (cumFactThrough L (c0 + 1) j + _)
    have hc : c0 + ((j : Int) + 1) = c0 + 1 + (j : Int) := by ring
    push_cast
    rw [hc]
    ring

lemma planList_get (base : ℚ) (L : Ledger) :
    ∀ (k n : ℕ) (c0 idx : Int) (cf : ℚ), k < n →
      (planList base L c0 idx cf n).get? k =
        some (ymOfCode (c0 + (k : Int)),
          if cf + cumFactThrough L c0 (k + 1) > base * ((idx + (k : Int) + 1 : Int) : ℚ) then
            max 0 (base - (cf + cumFactThrough L c0 (k + 1) -
              base * ((idx + (k : Int) + 1 : Int) : ℚ)))
          else base) := by
  intro k
  induction k with
  | zero =>
    intro n c0 idx cf hk
    match n, hk with
    | n + 1, _ =>
      rw [planList]
      dsimp only [List.get?]
      have h1 : c0 + ((0 : ℕ) : Int) = c0 := by push_cast; ring
      have h2 : cumFactThrough L c0 (0 + 1) =
          monthFact L (ymOfCode c0).1 (ymOfCode c0).2 := by
        show cumFactThrough L c0 0 + _ = _
        show 0 + monthFact L (ymOfCode (c0 + ((0:ℕ) : Int))).1 (ymOfCode (c0 + ((0:ℕ):Int))).2 = _
        rw [zero_add]
        norm_num
      have h3 : idx + ((0 : ℕ) : Int) + 1 = idx + 1 := by push_cast; ring
      rw [h1, h2, h3]
  | succ k ih =>
    intro n c0 idx cf hk
    match n, hk with
    | n + 1, hk =>
      rw [planList]
      dsimp only [List.get?]
      rw [ih n (c0 + 1) (idx + 1) _ (by omega)]
      have h1 : c0 + 1 + (k : Int) = c0 + ((k : ℕ) + 1 : ℕ) := by push_cast; ring
      have h3 : idx + 1 + (k : Int) + 1 = idx + (((k : ℕ) + 1 : ℕ) : Int) + 1 := by
        push_cast; ring
      have h2 : cf + monthFact L (ymOfCode c0).1 (ymOfCode c0).2 +
          cumFactThrough L (c0 + 1) (k + 1) = cf + cumFactThrough L c0 (k + 1 + 1) := by
        rw [cumFactThrough_succ_head L c0 (k + 1)]
        ring
      rw [h1, h3, h2]

lemma cumFactThrough_nil (c0 : Int) : ∀ k : ℕ, cumFactThrough [] c0 k = 0 := by
  intro k
  induction k with
  | zero => rfl
  | succ k ih =>
    show cumFactThrough [] c0 k + _ = 0
    rw [ih, monthFact_nil]
    ring

lemma planList_nil_snd (base : ℚ) (hbase : 0 < base) :
    ∀ (n : ℕ) (c0 idx : Int), 0 ≤ idx →
      (planList base [] c0 idx 0 n).map Prod.snd = List.replicate n base := by
  intro n
  induction n with
  | zero => intro c0 idx _; rfl
  | succ n ih =>
    intro c0 idx hidx
    rw [planList]
    rw [monthFact_nil, add_zero, List.map_cons, ih (c0 + 1) (idx + 1) (by omega)]
    have hcond : ¬ ((0:ℚ) > base * ((idx + 1 : Int) : ℚ)) := by
      have : (0:ℚ) < ((idx + 1 : Int) : ℚ) := by
        exact_mod_cast (by omega : (0:Int) < idx + 1)
      nlinarith
    rw [if_neg hcond, List.replicate_succ]

/-! ### Claims about the plan allocator -/

/-- Claim C7: for all start and end dates the month-count helper returns
at least 1 — the value `max 1 ((end.year-start.year)*12+end.month-start.month)`
— so the division computing `base_monthly_amount` never divides by zero
and the `months_count == 0` early return is unreachable. -/
theorem claim_C7_month_count (start_date end_date : QDate) :
    1 ≤ get_months_between_dates_including_start_excluding_end start_date end_date ∧
    get_months_between_dates_including_start_excluding_end start_date end_date =
      max 1 ((end_date.year - start_date.year) * 12 + end_date.month - start_date.month) ∧
    get_months_between_dates_including_start_excluding_end start_date end_date ≠ 0 := by
  refine ⟨months_between_pos _ _, rfl, ?_⟩
  have := months_between_pos start_date end_date
  omega

/-- Claim C1 (counterexample): the claim "for every contract with zero
deposits the plan values sum to the contract amount" fails on a contract
whose start and end fall in the same calendar month (`sJan`): the plan
is empty, so the sum is 0 while the amount is 1200. -/
theorem claim_C1_counterexample :
    ¬ (∀ (S : Settings) (hs : isValidDate S.start_date = true)
        (he : isValidDate S.end_date = true),
        ((calculate_monthly_plans S [] hs he).map Prod.snd).sum = S.contract_amount) := by
  intro h
  have h1 := h sJan sJan_start_valid sJan_end_valid
  rw [calculate_monthly_plans_eq sJan [] sJan_start_valid sJan_end_valid
    (by norm_num [sJan])] at h1
  norm_num [sJan, monthCode, planList] at h1

/-- Claim C1 (amended): for every contract with nonzero amount `A`, zero
deposits, and an end month strictly after the start month, the plan maps
exactly the months in `[start_date, end_date)` (the month of `start_date`
included, the month of `end_date` excluded) to `A/N` where
`N = max 1 ((end.year-start.year)*12+end.month-start.month)`, and the
plan values sum to `A`. -/
theorem claim_C1_amended (S : Settings)
    (hs : isValidDate S.start_date = true) (he : isValidDate S.end_date = true)
    (hA : 0 < S.contract_amount)
    (hspan : monthCode S.start_date < monthCode S.end_date) :
    (calculate_monthly_plans S [] hs he).length =
        (monthCode S.end_date - monthCode S.start_date).toNat ∧
    (get_months_between_dates_including_start_excluding_end S.start_date S.end_date =
        monthCode S.end_date - monthCode S.start_date) ∧
    (∀ k : ℕ, k < (monthCode S.end_date - monthCode S.start_date).toNat →
      (calculate_monthly_plans S [] hs he).get? k =
        some (ymOfCode (monthCode S.start_date + (k : Int)),
          S.contract_amount /
            ((get_months_between_dates_including_start_excluding_end
              S.start_date S.end_date : Int) : ℚ))) ∧
    ((calculate_monthly_plans S [] hs he).map Prod.snd).sum = S.contract_amount := by
  have hN : get_months_between_dates_including_start_excluding_end S.start_date S.end_date =
      monthCode S.end_date - monthCode S.start_date := by
    rw [months_between_eq_codes]
    omega
  have hNpos : (0:ℚ) <
      ((get_months_between_dates_including_start_excluding_end
        S.start_date S.end_date : Int) : ℚ) := by
    have := months_between_pos S.start_date S.end_date
    exact_mod_cast (by omega : (0:Int) <
      get_months_between_dates_including_start_excluding_end S.start_date S.end_date)
  have hbase : (0:ℚ) < S.contract_amount /
      ((get_months_between_dates_including_start_excluding_end
        S.start_date S.end_date : Int) : ℚ) := div_pos hA hNpos
  have hplans := calculate_monthly_plans_eq S [] hs he (by intro h0; rw [h0] at hA; exact lt_irrefl 0 hA)
  refine ⟨?_, hN, ?_, ?_⟩
  · rw [hplans, planList_length]
  · intro k hk
    rw [hplans, planList_get _ _ k _ _ _ _ hk]
    rw [cumFactThrough_nil]
    have hcond : ¬ ((0:ℚ) + 0 > S.contract_amount /
        ((get_months_between_dates_including_start_excluding_end
          S.start_date S.end_date : Int) : ℚ) * ((0 + (k : Int) + 1 : Int) : ℚ)) := by
      have hkpos : (0:ℚ) < ((0 + (k : Int) + 1 : Int) : ℚ) := by
        exact_mod_cast (by omega : (0:Int) < 0 + (k:Int) + 1)
      nlinarith
    rw [if_neg hcond]
  · rw [hplans, planList_nil_snd _ hbase _ _ _ (le_refl 0)]
    rw [List.sum_replicate]
    rw [nsmul_eq_mul]
    have hcast : (((monthCode S.end_date - monthCode S.start_date).toNat : ℕ) : ℚ) =
        ((get_months_between_dates_including_start_excluding_end
          S.start_date S.end_date : Int) : ℚ) := by
      rw [hN]
      exact_mod_cast congrArg (fun z : Int => (z : ℚ))
        (by omega : ((monthCode S.end_date - monthCode S.start_date).toNat : Int) =
          monthCode S.end_date - monthCode S.start_date)
    rw [hcast]
    field_simp

/-- Claim C1 (witness): the amended claim at the §8 end-to-end contract
(2024-01-01 to 2025-01-01, amount 12000, empty ledger). -/
theorem claim_C1_witness :
    (calculate_monthly_plans s2024 [] s2024_start_valid s2024_end_valid).length =
        (monthCode s2024.end_date - monthCode s2024.start_date).toNat ∧
    (get_months_between_dates_including_start_excluding_end s2024.start_date s2024.end_date =
        monthCode s2024.end_date - monthCode s2024.start_date) ∧
    (∀ k : ℕ, k < (monthCode s2024.end_date - monthCode s2024.start_date).toNat →
      (calculate_monthly_plans s2024 [] s2024_start_valid s2024_end_valid).get? k =
        some (ymOfCode (monthCode s2024.start_date + (k : Int)),
          s2024.contract_amount /
            ((get_months_between_dates_including_start_excluding_end
              s2024.start_date s2024.end_date : Int) : ℚ))) ∧
    ((calculate_monthly_plans s2024 [] s2024_start_valid s2024_end_valid).map
      Prod.snd).sum = s2024.contract_amount :=
  claim_C1_amended s2024 s2024_start_valid s2024_end_valid
    (by norm_num [s2024]) (by norm_num [s2024, monthCode])

/-- Claim C2 (counterexample): the claim "if cumulative deposits through
included month k exceed `base_amount * k` then included month k+1's plan
is strictly below `base_amount`" fails on the §8 contract with a single
January deposit of 1001: deposits through month 1 exceed 1000, yet the
February plan is exactly the base amount 1000 (the code compares the
cumulative deposits through month k+1, not month k). -/
theorem claim_C2_counterexample :
    ¬ (∀ (S : Settings) (L : Ledger) (hs : isValidDate S.start_date = true)
        (he : isValidDate S.end_date = true) (k : ℕ) (v : (Int × Int) × ℚ),
        ((∀ (j : ℕ) (w : (Int × Int) × ℚ),
            (calculate_monthly_plans S L hs he).get? j = some w → 0 ≤ w.2) ∧
          ((calculate_monthly_plans S L hs he).get? k = some v →
            cumFactThrough L (monthCode S.start_date) k >
              S.contract_amount /
                ((get_months_between_dates_including_start_excluding_end
                  S.start_date S.end_date : Int) : ℚ) * (k : ℚ) →
            v.2 < S.contract_amount /
              ((get_months_between_dates_including_start_excluding_end
                S.start_date S.end_date : Int) : ℚ)))) := by
  intro h
  have h2 := (h s2024 [(⟨2024, 1, 10⟩, 1001)] s2024_start_valid s2024_end_valid
    1 ((2024, 2), 1000)).2
  have hplans := calculate_monthly_plans_eq s2024 [(⟨2024, 1, 10⟩, 1001)]
    s2024_start_valid s2024_end_valid (by norm_num [s2024])
  have hn : (monthCode s2024.end_date - monthCode s2024.start_date).toNat = 12 := by
    decide
  rw [hplans, hn] at h2
  rw [planList_get _ _ 1 12 _ _ _ (by norm_num)] at h2
  have h3 := h2 (by
    norm_num [s2024, monthCode, ymOfCode, cumFactThrough, monthFact,
      get_months_between_dates_including_start_excluding_end, List.filter])
  have h4 := h3 (by
    norm_num [s2024, monthCode, ymOfCode, cumFactThrough, monthFact,
      get_months_between_dates_including_start_excluding_end, List.filter])
  norm_num [s2024, get_months_between_dates_including_start_excluding_end] at h4

/-- Claim C2 (amended): for every contract (amount ≥ 0) and ledger, no
plan value is negative, and if the cumulative deposits through included
month k+1 exceed `base_amount * (k+1)` then included month k+1's plan is
strictly less than `base_amount`. -/
theorem claim_C2_amended (S : Settings) (L : Ledger)
    (hs : isValidDate S.start_date = true) (he : isValidDate S.end_date = true)
    (hA : 0 ≤ S.contract_amount) (k : ℕ) (v : (Int × Int) × ℚ)
    (hv : (calculate_monthly_plans S L hs he).get? k = some v) :
    0 ≤ v.2 ∧
      (cumFactThrough L (monthCode S.start_date) (k + 1) >
          S.contract_amount /
            ((get_months_between_dates_including_start_excluding_end
              S.start_date S.end_date : Int) : ℚ) * ((k : ℚ) + 1) →
        v.2 < S.contract_amount /
          ((get_months_between_dates_including_start_excluding_end
            S.start_date S.end_date : Int) : ℚ)) := by
  by_cases hA0 : S.contract_amount = 0
  · rw [calculate_monthly_plans, if_pos hA0] at hv
    exact absurd hv (by simp)
  · have hApos : 0 < S.contract_amount := lt_of_le_of_ne hA (Ne.symm hA0)
    have hNpos : (0:ℚ) <
        ((get_months_between_dates_including_start_excluding_end
          S.start_date S.end_date : Int) : ℚ) := by
      have := months_between_pos S.start_date S.end_date
      exact_mod_cast (by omega : (0:Int) <
        get_months_between_dates_including_start_excluding_end S.start_date S.end_date)
    have hbase : (0:ℚ) < S.contract_amount /
        ((get_months_between_dates_including_start_excluding_end
          S.start_date S.end_date : Int) : ℚ) := div_pos hApos hNpos
    rw [calculate_monthly_plans_eq S L hs he hA0] at hv
    have hlen := planList_length
      (S.contract_amount /
        ((get_months_between_dates_including_start_excluding_end
          S.start_date S.end_date : Int) : ℚ)) L
      (monthCode S.end_date - monthCode S.start_date).toNat (monthCode S.start_date) 0 0
    have hk : k < (monthCode S.end_date - monthCode S.start_date).toNat := by
      by_contra hk'
      rw [List.get?_eq_none.2 (by rw [hlen]; omega)] at hv
      exact Option.noConfusion hv
    rw [planList_get _ _ k _ _ _ _ hk, Option.some.injEq] at hv
    subst hv
    have hcast : ((0 + (k : Int) + 1 : Int) : ℚ) = (k : ℚ) + 1 := by push_cast; ring
    constructor
    · dsimp only
      split_ifs with hcond
      · exact le_max_left 0 _
      · exact le_of_lt hbase
    · intro hcum
      dsimp only
      rw [hcast]
      split_ifs with hcond
      · refine max_lt hbase ?_
        linarith
      · exfalso
        exact hcond (by linarith)

/-- Claim C2 (witness): the amended claim at the §8 contract with a
single January deposit of 2500: deposits through month 2 (2500) exceed
2·1000, and February's plan 500 is strictly below the base amount. -/
theorem claim_C2_witness :
    (0:ℚ) ≤ (((2024, 2), (500:ℚ)) : (Int × Int) × ℚ).2 ∧
      (cumFactThrough [(⟨2024, 1, 10⟩, 2500)] (monthCode s2024.start_date) (1 + 1) >
          s2024.contract_amount /
            ((get_months_between_dates_including_start_excluding_end
              s2024.start_date s2024.end_date : Int) : ℚ) * (((1:ℕ) : ℚ) + 1) →
        (((2024, 2), (500:ℚ)) : (Int × Int) × ℚ).2 <
          s2024.contract_amount /
            ((get_months_between_dates_including_start_excluding_end
              s2024.start_date s2024.end_date : Int) : ℚ)) :=
  claim_C2_amended s2024 [(⟨2024, 1, 10⟩, 2500)] s2024_start_valid s2024_end_valid
    (by norm_num [s2024]) 1 ((2024, 2), 500) (by
      rw [calculate_monthly_plans_eq s2024 _ s2024_start_valid s2024_end_valid
        (by norm_num [s2024])]
      rw [(by decide : (monthCode s2024.end_date - monthCode s2024.start_date).toNat = 12)]
      rw [planList_get _ _ 1 12 _ _ _ (by norm_num)]
      norm_num [s2024, monthCode, ymOfCode, cumFactThrough, monthFact,
        get_months_between_dates_including_start_excluding_end, List.filter])

/-! ### Claims about the effective-rate resolver -/

lemma filter_filter_of_imp {α : Type} (p q : α → Bool) (l : List α)
    (h : ∀ x, p x = true → q x = true) :
    (l.filter q).filter p = l.filter p := by
  induction l with
  | nil => rfl
  | cons x xs ih =>
    by_cases hq : q x = true
    · rw [List.filter_cons_of_pos hq]
      by_cases hp : p x = true
      · rw [List.filter_cons_of_pos hp, List.filter_cons_of_pos hp, ih]
      · rw [List.filter_cons_of_neg (by simpa using hp),
          List.filter_cons_of_neg (by simpa using hp), ih]
    · have hp : ¬ p x = true := fun hp => hq (h x hp)
      rw [List.filter_cons_of_neg (by simpa using hq),
        List.filter_cons_of_neg (by simpa using hp), ih]

lemma effective_rate_spec (D : QDate) (S : Settings) :
    get_effective_rate_on_date D S =
      (((sortRateHistory S.rate_history).filter (fun e => QDate.leB e.1 D)).map
        Prod.snd).getLastD S.initial_rate :=
  rateScan_sorted D _ _ (pairwise_sortRateHistory _)

/-- Claim C3: `get_effective_rate_on_date` returns the rate of the
latest history entry dated at or before D (the initial rate when no
entry qualifies, in particular for an empty history), and on the §8
example history `[{01.01.2023, 5.0}, {01.06.2023, 7.0}]` with initial
rate 3.0 it returns 3.0, 5.0, 7.0, 7.0 on the four sample dates. -/
theorem claim_C3_effective_rate (D : QDate) (S : Settings) :
    ((∀ e ∈ S.rate_history, ¬ QDate.leB e.1 D = true) →
      get_effective_rate_on_date D S = S.initial_rate) ∧
    ((∃ e ∈ S.rate_history, QDate.leB e.1 D = true) →
      ∃ f ∈ S.rate_history, QDate.leB f.1 D = true ∧
        (∀ g ∈ S.rate_history, QDate.leB g.1 D = true → QDate.leB g.1 f.1 = true) ∧
        get_effective_rate_on_date D S = f.2) ∧
    (∀ init : ℚ,
      get_effective_rate_on_date D
        ⟨S.start_date, S.end_date, init, [], S.contract_amount⟩ = init) ∧
    (get_effective_rate_on_date ⟨2022, 12, 31⟩ exampleSettings = 3 ∧
      get_effective_rate_on_date ⟨2023, 3, 1⟩ exampleSettings = 5 ∧
      get_effective_rate_on_date ⟨2023, 6, 1⟩ exampleSettings = 7 ∧
      get_effective_rate_on_date ⟨2023, 12, 31⟩ exampleSettings = 7) := by
  refine ⟨?_, ?_, ?_, by decide, by decide, by decide, by decide⟩
  · intro hno
    rw [effective_rate_spec]
    have hfil : (sortRateHistory S.rate_history).filter
        (fun e => QDate.leB e.1 D) = [] := by
      rw [List.filter_eq_nil_iff]
      intro e he
      simp only [Bool.not_eq_true]
      have := hno e (mem_sortRateHistory.1 he)
      simpa using this
    rw [hfil]
    rfl
  · rintro ⟨e, he, hq⟩
    have hmem : e ∈ (sortRateHistory S.rate_history).filter
        (fun x => QDate.leB x.1 D) :=
      List.mem_filter.2 ⟨mem_sortRateHistory.2 he, hq⟩
    rcases List.eq_nil_or_concat ((sortRateHistory S.rate_history).filter
      (fun x => QDate.leB x.1 D)) with hnil | ⟨l2, f, hconcat⟩
    · rw [hnil] at hmem
      exact absurd hmem (List.not_mem_nil e)
    · rw [List.concat_eq_append] at hconcat
      have hffil : f ∈ (sortRateHistory S.rate_history).filter
          (fun x => QDate.leB x.1 D) := by
        rw [hconcat]
        exact List.mem_append_right l2 (List.mem_singleton_self f)
      have hfq : QDate.leB f.1 D = true := by
        simpa using (List.mem_filter.1 hffil).2
      have hfhist : f ∈ S.rate_history :=
        mem_sortRateHistory.1 (List.mem_filter.1 hffil).1
      have hpw : ((sortRateHistory S.rate_history).filter
          (fun x => QDate.leB x.1 D)).Pairwise
            (fun a b => QDate.leB a.1 b.1 = true) :=
        List.Pairwise.sublist (List.filter_sublist _) (pairwise_sortRateHistory _)
      refine ⟨f, hfhist, hfq, ?_, ?_⟩
      · intro g hg hgq
        have hgfil : g ∈ (sortRateHistory S.rate_history).filter
            (fun x => QDate.leB x.1 D) :=
          List.mem_filter.2 ⟨mem_sortRateHistory.2 hg, hgq⟩
        rw [hconcat] at hgfil hpw
        rcases List.mem_append.1 hgfil with hg2 | hgf
        · exact ((List.pairwise_append.1 hpw).2.2 g hg2 f (List.mem_singleton_self f))
        · rw [List.mem_singleton.1 hgf]
          exact leB_refl f.1
      · rw [effective_rate_spec, hconcat]
        simp [List.getLastD_concat]
  · intro init
    rfl

/-- Claim C3 (witness): at D = 2023-03-01 on the example settings the
resolver returns the rate of a latest at-or-before entry. -/
theorem claim_C3_witness :
    ∃ f ∈ exampleSettings.rate_history, QDate.leB f.1 ⟨2023, 3, 1⟩ = true ∧
      (∀ g ∈ exampleSettings.rate_history, QDate.leB g.1 ⟨2023, 3, 1⟩ = true →
        QDate.leB g.1 f.1 = true) ∧
      get_effective_rate_on_date ⟨2023, 3, 1⟩ exampleSettings = f.2 :=
  (claim_C3_effective_rate ⟨2023, 3, 1⟩ exampleSettings).2.1
    ⟨(⟨2023, 1, 1⟩, 5), by decide, by decide⟩

/-- Claim C10: the resolver is deterministic, and when several entries
share the maximal qualifying effective date the rate of the last-listed
such entry wins (the sort is stable and the scan lets later qualifying
entries override earlier ones); concretely, on a history with two
entries dated 01.01.2023 carrying rates 5 then 9, the result is 9. -/
theorem claim_C10_tie_break (D : QDate) (S : Settings) :
    (∀ S' : Settings, S' = S →
      get_effective_rate_on_date D S' = get_effective_rate_on_date D S) ∧
    ((∃ e ∈ S.rate_history, QDate.leB e.1 D = true) →
      ∃ m : QDate, QDate.leB m D = true ∧
        (∃ e ∈ S.rate_history, e.1 = m) ∧
        (∀ g ∈ S.rate_history, QDate.leB g.1 D = true → QDate.leB g.1 m = true) ∧
        get_effective_rate_on_date D S =
          ((S.rate_history.filter (fun e => decide (e.1 = m))).map Prod.snd).getLastD
            S.initial_rate) ∧
    get_effective_rate_on_date ⟨2023, 2, 1⟩ tieSettings = 9 := by
  refine ⟨fun S' h => by rw [h], ?_, by decide⟩
  rintro ⟨e, he, hq⟩
  have hmem : e ∈ (sortRateHistory S.rate_history).filter
      (fun x => QDate.leB x.1 D) :=
    List.mem_filter.2 ⟨mem_sortRateHistory.2 he, hq⟩
  rcases List.eq_nil_or_concat ((sortRateHistory S.rate_history).filter
    (fun x => QDate.leB x.1 D)) with hnil | ⟨l2, f, hconcat⟩
  · rw [hnil] at hmem
    exact absurd hmem (List.not_mem_nil e)
  · rw [List.concat_eq_append] at hconcat
    have hffil : f ∈ (sortRateHistory S.rate_history).filter
        (fun x => QDate.leB x.1 D) := by
      rw [hconcat]
      exact List.mem_append_right l2 (List.mem_singleton_self f)
    have hfq : QDate.leB f.1 D = true := by
      simpa using (List.mem_filter.1 hffil).2
    have hfhist : f ∈ S.rate_history :=
      mem_sortRateHistory.1 (List.mem_filter.1 hffil).1
    have hpw : ((sortRateHistory S.rate_history).filter
        (fun x => QDate.leB x.1 D)).Pairwise
          (fun a b => QDate.leB a.1 b.1 = true) :=
      List.Pairwise.sublist (List.filter_sublist _) (pairwise_sortRateHistory _)
    refine ⟨f.1, hfq, ⟨f, hfhist, rfl⟩, ?_, ?_⟩
    · intro g hg hgq
      have hgfil : g ∈ (sortRateHistory S.rate_history).filter
          (fun x => QDate.leB x.1 D) :=
        List.mem_filter.2 ⟨mem_sortRateHistory.2 hg, hgq⟩
      rw [hconcat] at hgfil hpw
      rcases List.mem_append.1 hgfil with hg2 | hgf
      · exact ((List.pairwise_append.1 hpw).2.2 g hg2 f (List.mem_singleton_self f))
      · rw [List.mem_singleton.1 hgf]
        exact leB_refl f.1
    · have hchain : S.rate_history.filter (fun x => decide (x.1 = f.1)) =
          (l2.filter (fun x => decide (x.1 = f.1))) ++ [f] := by
        rw [← filter_sortRateHistory_eq_date]
        rw [← filter_filter_of_imp (fun x => decide (x.1 = f.1))
          (fun x => QDate.leB x.1 D) (sortRateHistory S.rate_history)
          (fun x hx => by
            have hxm : x.1 = f.1 := by simpa using hx
            show QDate.leB x.1 D = true
            rw [hxm]
            exact hfq)]
        rw [hconcat, List.filter_append]
        have hf1 : [f].filter (fun x => decide (x.1 = f.1)) = [f] := by
          simp
        rw [hf1]
      rw [hchain, effective_rate_spec, hconcat]
      simp [List.getLastD_concat]

/-! ### Claims about the interest simulator -/

lemma daysInYear_pos_q (d : QDate) : (0:ℚ) < (d.daysInYear : ℚ) := by
  unfold QDate.daysInYear
  split_ifs <;> norm_num

lemma dayInterest_pos {S : Settings} (d : QDate) {bal : ℚ}
    (hr : ∀ x : QDate, 0 < get_effective_rate_on_date x S) (hb : 0 < bal) :
    0 < dayInterest S d bal := by
  unfold dayInterest
  rw [if_pos hb]
  exact div_pos (div_pos (mul_pos hb (hr d)) (by norm_num)) (daysInYear_pos_q d)

lemma dayInterest_nonneg {S : Settings} (d : QDate) (bal : ℚ)
    (hr : ∀ x : QDate, 0 < get_effective_rate_on_date x S) :
    0 ≤ dayInterest S d bal := by
  unfold dayInterest
  split_ifs with hb
  · exact le_of_lt (div_pos (div_pos (mul_pos hb (hr d)) (by norm_num))
      (daysInYear_pos_q d))
  · exact le_refl 0

lemma lookup_singleton_getD_nonneg (d0 d : QDate) (a : ℚ) (ha : 0 ≤ a) :
    0 ≤ (lookupLedger [(d0, a)] d).getD 0 := by
  unfold lookupLedger
  unfold List.find?
  by_cases h : d0 = d
  · simp [h, ha]
  · simp [h]

/-- Claim C5: `calculate_monthly_interest` derives the accrual date of
month (Y, M) as the day of (Y, M) equal to `start_date`'s day-of-month,
clamped to the last day of (Y, M) when that day does not exist, and
returns exactly 0 whenever `accrual_date <= start_date` or
`target_period_start >= simulation_end_date`, where
`simulation_end_date = min(accrual_date, today)` and
`target_period_start = accrual_date - 1 month`, floored at
`start_date`. -/
theorem claim_C5_accrual_and_zero (S : Settings) (L : Ledger) (today : QDate)
    (year month : Int) (hs : isValidDate S.start_date = true)
    (ht : isValidDate today = true) (hm : 1 ≤ month ∧ month ≤ 12) :
    accrualDate S.start_date year month =
      ⟨year, month,
        if S.start_date.day ≤ daysInMonth year month then S.start_date.day
        else daysInMonth year month⟩ ∧
    ((QDate.leB (accrualDate S.start_date year month) S.start_date = true ∨
        QDate.leB (minDate (accrualDate S.start_date year month) today)
          (if QDate.ltB ((accrualDate S.start_date year month).addMonths (-1))
              S.start_date = true then S.start_date
            else (accrualDate S.start_date year month).addMonths (-1)) = true) →
      calculate_monthly_interest S L today year month hs ht hm = 0) := by
  have hd1 : 1 ≤ S.start_date.day := ((isValidDate_iff _).1 hs).2.2.1
  constructor
  · unfold accrualDate
    by_cases hdim : S.start_date.day ≤ daysInMonth year month
    · rw [if_pos ((isValidDate_iff ⟨year, month, S.start_date.day⟩).2
        ⟨hm.1, hm.2, hd1, hdim⟩), if_pos hdim]
    · rw [if_neg (fun hvalid =>
        hdim ((isValidDate_iff ⟨year, month, S.start_date.day⟩).1 hvalid).2.2.2),
        if_neg hdim]
  · intro hdisj
    unfold calculate_monthly_interest
    dsimp only
    by_cases hle : QDate.leB (accrualDate S.start_date year month) S.start_date = true
    · rw [if_pos hle]
    · rw [if_neg hle]
      rcases hdisj with hd | hd
      · exact absurd hd hle
      · rw [if_pos hd]

/-- Claim C5 (witness): on the contract starting 2024-01-01, querying
month (2024, 1) yields accrual date 2024-01-01 = start_date, hence zero
interest. -/
theorem claim_C5_witness :
    accrualDate s2024.start_date 2024 1 =
      ⟨2024, 1,
        if s2024.start_date.day ≤ daysInMonth 2024 1 then s2024.start_date.day
        else daysInMonth 2024 1⟩ ∧
    ((QDate.leB (accrualDate s2024.start_date 2024 1) s2024.start_date = true ∨
        QDate.leB (minDate (accrualDate s2024.start_date 2024 1) ⟨2024, 6, 1⟩)
          (if QDate.ltB ((accrualDate s2024.start_date 2024 1).addMonths (-1))
              s2024.start_date = true then s2024.start_date
            else (accrualDate s2024.start_date 2024 1).addMonths (-1)) = true) →
      calculate_monthly_interest s2024 [] ⟨2024, 6, 1⟩ 2024 1 s2024_start_valid
        (by decide) (by decide) = 0) :=
  claim_C5_accrual_and_zero s2024 [] ⟨2024, 6, 1⟩ 2024 1 s2024_start_valid
    (by decide) (by decide)

/-- Claim C4: in the daily simulation each day's interest is computed
and capitalized from the balance BEFORE that day's deposit is added
(one `simLoop` step advances the balance by `dayStep`, whose interest
term sees only the incoming balance), so a deposit made on day D earns
nothing on day D; in particular, with a single deposit of 1000 on
`start_date` and an everywhere-positive effective rate, the interest of
the first simulated day is zero and the daily interest is strictly
positive on every later simulated day. -/
theorem claim_C4_capitalization_order :
    (∀ (S : Settings) (L : Ledger) (tps simEnd : QDate)
      (hE : isValidDate simEnd = true) (iter : QDate)
      (hI : isValidDate iter = true) (bal acc : ℚ),
      QDate.ltB iter simEnd = true →
      simLoop S L tps simEnd hE iter hI bal acc =
        simLoop S L tps simEnd hE iter.addDays1 (addDays1_valid hI)
          (dayStep S L iter bal)
          (acc + if 0 < bal ∧ QDate.leB tps iter = true
            then dayInterest S iter bal else 0)) ∧
    (∀ S : Settings,
      (∀ d : QDate, 0 < get_effective_rate_on_date d S) →
      dayInterest S S.start_date
        (simBalance S [(S.start_date, 1000)] S.start_date 0).2 = 0 ∧
      ∀ n : ℕ, 1 ≤ n →
        0 < dayInterest S
          (simBalance S [(S.start_date, 1000)] S.start_date n).1
          (simBalance S [(S.start_date, 1000)] S.start_date n).2) := by
  constructor
  · intro S L tps simEnd hE iter hI bal acc h
    rw [simLoop, dif_pos h]
    dsimp only
    by_cases hb : 0 < bal
    · rw [if_pos hb]
      by_cases hp : QDate.leB tps iter = true
      · rw [if_pos hp, if_pos ⟨hb, hp⟩]
        unfold dayStep dayInterest
        rw [if_pos hb]
        cases hl : lookupLedger L iter with
        | none => simp [hl]
        | some a => simp [hl]
      · rw [if_neg hp, if_neg (fun hc => hp hc.2)]
        unfold dayStep dayInterest
        rw [if_pos hb]
        rw [add_zero]
        cases hl : lookupLedger L iter with
        | none => simp [hl]
        | some a => simp [hl]
    · rw [if_neg hb, if_neg (fun hc => hb hc.1)]
      unfold dayStep dayInterest
      rw [if_neg hb]
      rw [add_zero, add_zero]
      cases hl : lookupLedger L iter with
      | none => simp [hl]
      | some a => simp [hl]
  · intro S hr
    have hdep : ∀ d : QDate,
        0 ≤ (lookupLedger [(S.start_date, (1000:ℚ))] d).getD 0 :=
      fun d => lookup_singleton_getD_nonneg S.start_date d 1000 (by norm_num)
    have hbal : ∀ n : ℕ, 1 ≤ n →
        0 < (simBalance S [(S.start_date, 1000)] S.start_date n).2 := by
      intro n hn
      induction n with
      | zero => omega
      | succ n ih =>
        rcases Nat.eq_zero_or_pos n with rfl | hpos
        · show 0 < dayStep S [(S.start_date, 1000)] S.start_date 0
          unfold dayStep dayInterest lookupLedger
          unfold List.find?
          simp
        · have hb := ih hpos
          show 0 < dayStep S [(S.start_date, 1000)]
            (simBalance S [(S.start_date, 1000)] S.start_date n).1
            (simBalance S [(S.start_date, 1000)] S.start_date n).2
          unfold dayStep
          have h1 := dayInterest_nonneg
            (simBalance S [(S.start_date, 1000)] S.start_date n).1
            (simBalance S [(S.start_date, 1000)] S.start_date n).2 hr
          have h2 := hdep (simBalance S [(S.start_date, 1000)] S.start_date n).1
          linarith
    constructor
    · show dayInterest S S.start_date 0 = 0
      unfold dayInterest
      rw [if_neg (lt_irrefl 0)]
    · intro n hn
      exact dayInterest_pos _ hr (hbal n hn)

/-- Claim C4 (witness): the scenario part at the concrete contract with
initial rate 5 and no rate history: zero interest on the first simulated
day, positive daily interest on the next. -/
theorem claim_C4_witness :
    dayInterest sRate5 sRate5.start_date
      (simBalance sRate5 [(sRate5.start_date, 1000)] sRate5.start_date 0).2 = 0 ∧
    0 < dayInterest sRate5
      (simBalance sRate5 [(sRate5.start_date, 1000)] sRate5.start_date 1).1
      (simBalance sRate5 [(sRate5.start_date, 1000)] sRate5.start_date 1).2 := by
  have h := claim_C4_capitalization_order.2 sRate5 (fun d => by
    show (0:ℚ) < get_effective_rate_on_date d sRate5
    norm_num [get_effective_rate_on_date, sRate5, sortRateHistory, rateScan])
  exact ⟨h.1, h.2 1 (le_refl 1)⟩

/-! ### Claims about cumulative interest -/

lemma calculate_monthly_interest_congr (S : Settings) (L : Ledger) (today : QDate)
    (hs : isValidDate S.start_date = true) (ht : isValidDate today = true)
    {y1 m1 y2 m2 : Int} (hm1 : 1 ≤ m1 ∧ m1 ≤ 12) (hm2 : 1 ≤ m2 ∧ m2 ≤ 12)
    (hy : y1 = y2) (hm : m1 = m2) :
    calculate_monthly_interest S L today y1 m1 hs ht hm1 =
      calculate_monthly_interest S L today y2 m2 hs ht hm2 := by
  subst hy
  subst hm
  rfl

lemma not_ltB_first_day {u c : QDate} (hu : isValidDate u = true)
    (hcm : MonthOK c) (h : monthCode c ≤ monthCode u) :
    QDate.ltB u ⟨c.year, c.month, 1⟩ = false := by
  have huf := (isValidDate_iff u).1 hu
  rw [← Bool.not_eq_true, ltB_iff]
  dsimp only
  unfold monthCode at h
  omega

lemma accLoop_eq_interestMonthSum (S : Settings) (L : Ledger) (today up_to : QDate)
    (hs : isValidDate S.start_date = true) (ht : isValidDate today = true)
    (hu : isValidDate up_to = true) :
    ∀ (n : ℕ) (cur : QDate) (hc : isValidDate cur = true),
      (monthCode up_to + 1 - monthCode cur).toNat ≤ n →
      ∀ total : ℚ,
        accLoop S L today up_to hs ht cur hc total =
          total + interestMonthSum S L today hs ht (monthCode cur)
            (monthCode up_to - monthCode cur + 1).toNat := by
  have hub := addMonths_month_bounds up_to 1
  have hucode : monthCode (up_to.addMonths 1) = monthCode up_to + 1 :=
    monthCode_addMonths up_to 1
  intro n
  induction n with
  | zero =>
    intro cur hc hle total
    have hcf := (isValidDate_iff cur).1 hc
    have hpast : monthCode up_to < monthCode cur := by omega
    have h0 : (monthCode up_to - monthCode cur + 1).toNat = 0 := by omega
    rw [h0]
    rw [accLoop]
    by_cases hwhile : QDate.leB cur (up_to.addMonths 1) = true
    · rw [dif_pos hwhile]
      have hb1 : QDate.ltB up_to ⟨cur.year, cur.month, 1⟩ = true :=
        @ltB_of_monthCode_lt up_to ⟨cur.year, cur.month, 1⟩
          ⟨((isValidDate_iff up_to).1 hu).1, ((isValidDate_iff up_to).1 hu).2.1⟩
          ⟨hcf.1, hcf.2.1⟩
          (by rw [monthCode_first_day]; exact hpast)
      have hb2 : QDate.ltB up_to cur = true :=
        ltB_of_monthCode_lt ⟨(isValidDate_iff up_to).1 hu |>.1,
          (isValidDate_iff up_to).1 hu |>.2.1⟩ ⟨hcf.1, hcf.2.1⟩ hpast
      rw [if_pos ⟨hb1, hb2⟩]
      simp [interestMonthSum]
    · rw [dif_neg hwhile]
      simp [interestMonthSum]
  | succ n ih =>
    intro cur hc hle total
    have hcf := (isValidDate_iff cur).1 hc
    by_cases hcode : monthCode cur ≤ monthCode up_to
    · have hwhile : QDate.leB cur (up_to.addMonths 1) = true := by
        rw [leB_iff]
        left
        apply ltB_of_monthCode_lt ⟨hcf.1, hcf.2.1⟩ hub
        omega
      rw [accLoop, dif_pos hwhile]
      have hnobreak : ¬ (QDate.ltB up_to ⟨cur.year, cur.month, 1⟩ = true ∧
          QDate.ltB up_to cur = true) := by
        intro hcontra
        have hfd := not_ltB_first_day hu ⟨hcf.1, hcf.2.1⟩ hcode
        rw [hfd] at hcontra
        exact Bool.noConfusion hcontra.1
      rw [if_neg hnobreak]
      rw [ih (cur.addMonths 1) (addMonths_valid hc 1)
        (by rw [monthCode_addMonths]; omega)]
      rw [monthCode_addMonths]
      have hK : (monthCode up_to - monthCode cur + 1).toNat =
          (monthCode up_to - (monthCode cur + 1) + 1).toNat + 1 := by omega
      rw [hK, interestMonthSum]
      have hym := ymOfCode_monthCode hcf.1 hcf.2.1
      have hcongr := calculate_monthly_interest_congr S L today hs ht
        (ymOfCode_month_bounds (monthCode cur))
        (by
          rw [isValidDate_iff] at hc
          exact ⟨hc.1, hc.2.1⟩)
        (by rw [hym] : (ymOfCode (monthCode cur)).1 = cur.year)
        (by rw [hym] : (ymOfCode (monthCode cur)).2 = cur.month)
      rw [hcongr]
      ring
    · have hpast : monthCode up_to < monthCode cur := by omega
      have h0 : (monthCode up_to - monthCode cur + 1).toNat = 0 := by omega
      rw [h0]
      rw [accLoop]
      by_cases hwhile : QDate.leB cur (up_to.addMonths 1) = true
      · rw [dif_pos hwhile]
        have hb1 : QDate.ltB up_to ⟨cur.year, cur.month, 1⟩ = true :=
          @ltB_of_monthCode_lt up_to ⟨cur.year, cur.month, 1⟩
            ⟨((isValidDate_iff up_to).1 hu).1, ((isValidDate_iff up_to).1 hu).2.1⟩
            ⟨hcf.1, hcf.2.1⟩
            (by rw [monthCode_first_day]; exact hpast)
        have hb2 : QDate.ltB up_to cur = true :=
          ltB_of_monthCode_lt ⟨(isValidDate_iff up_to).1 hu |>.1,
            (isValidDate_iff up_to).1 hu |>.2.1⟩ ⟨hcf.1, hcf.2.1⟩ hpast
        rw [if_pos ⟨hb1, hb2⟩]
        simp [interestMonthSum]
      · rw [dif_neg hwhile]
        simp [interestMonthSum]

/-- Claim C6: `get_total_accumulated_interest(up_to)` returns 0 when
`up_to <= start_date` and otherwise equals the sum of
`calculate_monthly_interest(Y, M)` over exactly the months from the
month after `start_date`'s month through the month containing `up_to`,
inclusive — no earlier and no later month contributes. -/
theorem claim_C6_total_interest (S : Settings) (L : Ledger) (today up_to : QDate)
    (hs : isValidDate S.start_date = true) (ht : isValidDate today = true)
    (hu : isValidDate up_to = true) :
    (QDate.leB up_to S.start_date = true →
      get_total_accumulated_interest S L today up_to hs ht = 0) ∧
    (¬ QDate.leB up_to S.start_date = true →
      get_total_accumulated_interest S L today up_to hs ht =
        interestMonthSum S L today hs ht (monthCode S.start_date + 1)
          (monthCode up_to - monthCode S.start_date).toNat) := by
  constructor
  · intro h
    unfold get_total_accumulated_interest
    rw [if_pos h]
  · intro h
    unfold get_total_accumulated_interest
    rw [if_neg h]
    rw [accLoop_eq_interestMonthSum S L today up_to hs ht hu
      (monthCode up_to + 1 - monthCode (S.start_date.addMonths 1)).toNat
      (S.start_date.addMonths 1) (addMonths_valid hs 1) (le_refl _) 0]
    rw [monthCode_addMonths, zero_add]
    congr 1
    omega

/-- Claim C6 (witness): the characterization at the §8 contract, with
`up_to` = 2024-03-15 and `today` = 2024-06-01. -/
theorem claim_C6_witness :
    get_total_accumulated_interest s2024 [] ⟨2024, 6, 1⟩ ⟨2024, 3, 15⟩
        s2024_start_valid (by decide) =
      interestMonthSum s2024 [] ⟨2024, 6, 1⟩ s2024_start_valid (by decide)
        (monthCode s2024.start_date + 1)
        (monthCode ⟨2024, 3, 15⟩ - monthCode s2024.start_date).toNat :=
  (claim_C6_total_interest s2024 [] ⟨2024, 6, 1⟩ ⟨2024, 3, 15⟩
    s2024_start_valid (by decide) (by decide)).2 (by decide)

/-! ### Claims about the persistence layer -/

lemma digitChar_isDigit (n : Nat) : (digitChar n).isDigit = true := by
  unfold digitChar
  have h : n % 10 < 10 := Nat.mod_lt _ (by norm_num)
  generalize n % 10 = k at h
  interval_cases k <;> decide

lemma digitVal_digitChar (n : Nat) : digitVal (digitChar n) = n % 10 := by
  unfold digitChar digitVal
  have h : n % 10 < 10 := Nat.mod_lt _ (by norm_num)
  generalize n % 10 = k at h
  interval_cases k <;> decide

lemma parseYMD_fmtYMD (d : QDate) (hv : isValidDate d = true)
    (hy1 : 0 ≤ d.year) (hy2 : d.year ≤ 9999) :
    parseYMD (fmtYMD d) = some d := by
  have hvf := (isValidDate_iff d).1 hv
  have hdm := daysInMonth_bounds d.year d.month
  unfold fmtYMD parseYMD
  dsimp only
  rw [if_pos (by
    simp [digitChar_isDigit])]
  rw [Option.some.injEq, qdate_ext_iff]
  refine ⟨?_, ?_, ?_⟩ <;> dsimp only <;> simp only [digitVal_digitChar] <;> omega

/-- Claim C8: saving a well-formed settings record and reloading it
returns the identical record — same `start_date`, `end_date`,
`initial_rate`, `contract_amount`, and the same `rate_history` entries
with the same dates and rates. -/
theorem claim_C8_settings_round_trip (s : Settings) (st : SettingsStore)
    (today : QDate)
    (hs : isValidDate s.start_date = true) (he : isValidDate s.end_date = true)
    (hy1 : 0 ≤ s.start_date.year) (hy2 : s.start_date.year ≤ 9999)
    (hy3 : 0 ≤ s.end_date.year) (hy4 : s.end_date.year ≤ 9999) :
    get_contract_settings (save_contract_settings s st) today = s := by
  unfold save_contract_settings get_contract_settings
  dsimp only
  rw [parseYMD_fmtYMD s.start_date hs hy1 hy2, parseYMD_fmtYMD s.end_date he hy3 hy4]
  rfl

/-- Claim C8 (witness): the round trip at the example settings record. -/
theorem claim_C8_witness :
    get_contract_settings (save_contract_settings exampleSettings none)
      ⟨2024, 1, 1⟩ = exampleSettings :=
  claim_C8_settings_round_trip exampleSettings none ⟨2024, 1, 1⟩
    (by decide) (by decide) (by decide) (by decide) (by decide) (by decide)

lemma save_daily_preserves (st : Ledger) (w : QDate × ℚ)
    (h1 : ∀ e ∈ st, e.2 ≠ 0) (h2 : (st.map Prod.fst).Nodup) :
    (∀ e ∈ save_daily_amount st w.1 w.2, e.2 ≠ 0) ∧
      ((save_daily_amount st w.1 w.2).map Prod.fst).Nodup := by
  unfold save_daily_amount
  split_ifs with ha
  · constructor
    · intro e he
      exact h1 e (List.mem_of_mem_filter he)
    · exact ((List.filter_sublist st).map Prod.fst).nodup h2
  · constructor
    · intro e he
      rcases List.mem_append.1 he with hef | hes
      · exact h1 e (List.mem_of_mem_filter hef)
      · rw [List.mem_singleton.1 hes]
        exact ha
    · rw [List.map_append]
      rw [List.nodup_append]
      refine ⟨((List.filter_sublist st).map Prod.fst).nodup h2, List.nodup_singleton _, ?_⟩
      intro x hx
      rcases List.mem_map.1 hx with ⟨e, hef, rfl⟩
      have hp := (List.mem_filter.1 hef).2
      simp only [Bool.not_eq_true', decide_eq_false_iff_not] at hp
      simp [hp]

lemma foldl_save_inv (ws : List (QDate × ℚ)) :
    ∀ st : Ledger, (∀ e ∈ st, e.2 ≠ 0) → (st.map Prod.fst).Nodup →
      (∀ e ∈ ws.foldl (fun s w => save_daily_amount s w.1 w.2) st, e.2 ≠ 0) ∧
        ((ws.foldl (fun s w => save_daily_amount s w.1 w.2) st).map Prod.fst).Nodup := by
  induction ws with
  | nil => intro st h1 h2; exact ⟨h1, h2⟩
  | cons w ws ih =>
    intro st h1 h2
    rw [List.foldl_cons]
    have hp := save_daily_preserves st w h1 h2
    exact ih _ hp.1 hp.2

lemma get_daily_amount_eq_zero_iff (st : Ledger) (d : QDate)
    (h1 : ∀ e ∈ st, e.2 ≠ 0) :
    get_daily_amount st d = 0 ↔ ∀ e ∈ st, e.1 ≠ d := by
  unfold get_daily_amount
  constructor
  · intro hz e he hed
    cases hf : st.find? (fun e => decide (e.1 = d)) with
    | none =>
      have := List.find?_eq_none.1 hf e he
      simp [hed] at this
    | some f =>
      have hfm : f ∈ st := List.mem_of_find?_eq_some hf
      rw [hf] at hz
      exact h1 f hfm (by simpa using hz)
  · intro hno
    rw [List.find?_eq_none.2 (fun x hx => by
      simp only [decide_eq_true_eq]
      exact hno x hx)]
    rfl

/-- Claim C9: the deposit ledger built by any sequence of
`save_daily_amount` writes never stores a zero amount, has at most one
entry per date, a zero-amount write deletes the date's record, and
`get_daily_amount d` returns 0 exactly when no entry for `d` exists. -/
theorem claim_C9_ledger_invariant (ws : List (QDate × ℚ)) (d : QDate) :
    (∀ e ∈ ws.foldl (fun st w => save_daily_amount st w.1 w.2) [], e.2 ≠ 0) ∧
    ((ws.foldl (fun st w => save_daily_amount st w.1 w.2) []).map Prod.fst).Nodup ∧
    (∀ (st : Ledger) (a : ℚ), a = 0 →
      ∀ e ∈ save_daily_amount st d a, e.1 ≠ d) ∧
    (get_daily_amount (ws.foldl (fun st w => save_daily_amount st w.1 w.2) []) d = 0 ↔
      ∀ e ∈ ws.foldl (fun st w => save_daily_amount st w.1 w.2) [], e.1 ≠ d) := by
  have hinv := foldl_save_inv ws [] (by intro e he; exact absurd he (List.not_mem_nil e))
    List.nodup_nil
  refine ⟨hinv.1, hinv.2, ?_, get_daily_amount_eq_zero_iff _ d hinv.1⟩
  intro st a ha e he
  rw [save_daily_amount, if_pos ha] at he
  have hp := (List.mem_filter.1 he).2
  simp only [Bool.not_eq_true', decide_eq_false_iff_not] at hp
  exact hp

/-- Claim C9 (witness): the invariant at a concrete write sequence that
stores 100 on a date, overwrites it with 50, and zeroes a second date. -/
theorem claim_C9_witness :
    (∀ e ∈ ([((⟨2024, 1, 5⟩ : QDate), (100:ℚ)), (⟨2024, 1, 6⟩, 70), (⟨2024, 1, 5⟩, 50),
        (⟨2024, 1, 6⟩, 0)].foldl (fun st w => save_daily_amount st w.1 w.2) []),
      e.2 ≠ 0) ∧
    (([((⟨2024, 1, 5⟩ : QDate), (100:ℚ)), (⟨2024, 1, 6⟩, 70), (⟨2024, 1, 5⟩, 50),
        (⟨2024, 1, 6⟩, 0)].foldl (fun st w => save_daily_amount st w.1 w.2)
        []).map Prod.fst).Nodup ∧
    (∀ (st : Ledger) (a : ℚ), a = 0 →
      ∀ e ∈ save_daily_amount st ⟨2024, 1, 6⟩ a, e.1 ≠ (⟨2024, 1, 6⟩ : QDate)) ∧
    (get_daily_amount
        ([((⟨2024, 1, 5⟩ : QDate), (100:ℚ)), (⟨2024, 1, 6⟩, 70), (⟨2024, 1, 5⟩, 50),
          (⟨2024, 1, 6⟩, 0)].foldl (fun st w => save_daily_amount st w.1 w.2) [])
        ⟨2024, 1, 6⟩ = 0 ↔
      ∀ e ∈ ([((⟨2024, 1, 5⟩ : QDate), (100:ℚ)), (⟨2024, 1, 6⟩, 70), (⟨2024, 1, 5⟩, 50),
          (⟨2024, 1, 6⟩, 0)].foldl (fun st w => save_daily_amount st w.1 w.2) []),
        e.1 ≠ (⟨2024, 1, 6⟩ : QDate)) :=
  claim_C9_ledger_invariant
    [((⟨2024, 1, 5⟩ : QDate), (100:ℚ)), (⟨2024, 1, 6⟩, 70), (⟨2024, 1, 5⟩, 50),
      (⟨2024, 1, 6⟩, 0)] ⟨2024, 1, 6⟩

/-- Claim C10 (witness): the tie-break characterization at the
duplicate-date history, at D = 2023-02-01. -/
theorem claim_C10_witness :
    ∃ m : QDate, QDate.leB m ⟨2023, 2, 1⟩ = true ∧
      (∃ e ∈ tieSettings.rate_history, e.1 = m) ∧
      (∀ g ∈ tieSettings.rate_history, QDate.leB g.1 ⟨2023, 2, 1⟩ = true →
        QDate.leB g.1 m = true) ∧
      get_effective_rate_on_date ⟨2023, 2, 1⟩ tieSettings =
        ((tieSettings.rate_history.filter (fun e => decide (e.1 = m))).map
          Prod.snd).getLastD tieSettings.initial_rate :=
  (claim_C10_tie_break ⟨2023, 2, 1⟩ tieSettings).2.1
    ⟨(⟨2023, 1, 1⟩, 5), by decide, by decide⟩
